import Mathlib

/-!
Verification of the cover-art image aggregation logic of a music-tagging
application (the `ImageList` container and the
`update_metadata_images_from_children` / `add_metadata_images_from_children` /
`remove_metadata_images_from_children` family on cluster/track/album
aggregates).  The implementation module `picard/util/imagelist.py` and the
node classes `Cluster` / `Track` / `Album` are not part of the provided
sources; every definition below is therefore modelled from the specification
(sections 3 and 4), with the repository's own test-suite
(`test/test_imagelist.py`) taken as the authority on observable behaviour
wherever the two disagree.
-/

/-- Modelled from the spec: an Image is an opaque content-identified artifact
(identity by content + source, abstracted to a numeric key) carrying a derived
"is a front image" predicate (spec section 3). -/
structure Image where
  id : Nat
  front : Bool
deriving DecidableEq, Repr

/-- Modelled from the spec: equality of two Ordered Image Collections
(`ImageList.__eq__` of the missing `picard/util/imagelist.py`) is set
equality, i.e. mutual membership, regardless of order or multiplicity
(spec section 3: "equality between two collections is set equality"). -/
def imgSetEq (a b : List Image) : Bool :=
  decide ((∀ x ∈ a, x ∈ b) ∧ (∀ x ∈ b, x ∈ a))

/-- Append an image to an accumulator unless it is already present
(first-seen-order de-duplication used by the aggregation union). -/
def addUnique (acc : List Image) (i : Image) : List Image :=
  if i ∈ acc then acc else acc ++ [i]

/-- De-duplicating union of one child's image list into an accumulator,
preserving first-seen order. -/
def unionInto (acc : List Image) (l : List Image) : List Image :=
  l.foldl addUnique acc

/-- Modelled from the spec: the union (as a set, de-duplicated, first-seen
order across children in child order) of all children's images
(spec section 4.2, step 2 of full recompute). -/
def images_union (cs : List (List Image)) : List Image :=
  cs.foldl unionInto []

/-- Modelled from the spec: `has_common_images` is true iff there are zero
children, or every child's image set equals every other's as a set
(spec section 4.2, step 3; comparison is the collection's set equality). -/
def has_common (cs : List (List Image)) : Bool :=
  match cs with
  | [] => true
  | c :: rest => decide (∀ d ∈ rest, imgSetEq c d = true)

/-- An aggregate node's image-related metadata: the aggregated image
collection and the `has_common_images` flag. -/
structure AggState where
  images : List Image
  has_common_images : Bool
deriving DecidableEq, Repr

/-- Modelled from the spec: a freshly constructed aggregate node starts with
an empty aggregated collection and `has_common_images` true (spec section 3:
vacuously true with zero children; pinned by `test_remove_from_empty_cluster`,
whose first full recompute over an imageless child must return false). -/
def initialAggState : AggState := ⟨[], true⟩

/-- Modelled from the spec: full recomputation
`update_metadata_images_from_children` (spec section 4.2).  Takes the node's
current metadata state and the image lists of its current children; returns
the new state and the boolean result, which is true iff the aggregated
collection changed as a set or the flag changed. -/
def update_metadata_images_from_children (st : AggState) (cs : List (List Image)) :
    AggState × Bool :=
  let new_images := images_union cs
  let new_flag := has_common cs
  (⟨new_images, new_flag⟩,
    !(imgSetEq st.images new_images) || (st.has_common_images != new_flag))

/-- Modelled from the spec: incremental `add_metadata_images_from_children`
(spec section 4.2).  `cs` is the node's full current child set (already
including the added children) and `added` the newly appended children: the
union of the added children's images is merged into the current aggregated
collection, the flag is recomputed against the full child set, and the result
is true iff the set membership or the flag changed. -/
def add_metadata_images_from_children (st : AggState) (cs : List (List Image))
    (added : List (List Image)) : AggState × Bool :=
  let new_images := unionInto st.images (images_union added)
  let new_flag := has_common cs
  (⟨new_images, new_flag⟩,
    !(imgSetEq st.images new_images) || (st.has_common_images != new_flag))

/-- Modelled from the spec: incremental `remove_metadata_images_from_children`
(spec section 4.2).  `remaining` is the node's child set after the removal
(the original also receives the removed children, but uses them only to skip
work; the final state is determined by the remaining children alone): every
image no longer contributed by any remaining child is removed from the
aggregated collection, the flag is recomputed from the remaining children,
and the result is true iff the set or the flag changed. -/
def remove_metadata_images_from_children (st : AggState)
    (remaining : List (List Image)) : AggState × Bool :=
  let keep := images_union remaining
  let new_images := st.images.filter (fun i => decide (i ∈ keep))
  let new_flag := has_common remaining
  (⟨new_images, new_flag⟩,
    !(imgSetEq st.images new_images) || (st.has_common_images != new_flag))

/-- Modelled from the spec: `ImageList.get_front_image` of the missing
`picard/util/imagelist.py` returns the image satisfying the front predicate
that the collection selects, or none.  The selection order is pinned to the
FIRST match in insertion order by the repository's own test
`test_to_be_saved_to_tags`: on the list [a, b, c] with fronts b and c the
embed-one-front export yields [b], the earliest front image, which overrides
the spec's "last image" wording (spec section 4.1). -/
def get_front_image (l : List Image) : Option Image :=
  l.find? (fun i => i.front)

/-- Modelled from the spec and pinned by `test_to_be_saved_to_tags`: the pure
image-selection core of `ImageList.to_be_saved_to_tags` once both settings
have been read.  `save = false` yields the empty sequence; `embed = false`
yields every image in order; otherwise only the single front image selected
by `get_front_image` is yielded (the test shows non-front images are dropped
in this mode: [a, b] with front b yields exactly [b]). -/
def to_be_saved_seq (l : List Image) (save embed : Bool) : List Image :=
  if save then
    if embed then
      match get_front_image l with
      | some f => [f]
      | none => []
    else l
  else []

/-- The settings mapping consulted by the export filter: either required key
may be absent (no default is substituted). -/
structure SettingsMap where
  save_images_to_tags : Option Bool
  embed_only_one_front_image : Option Bool
deriving DecidableEq, Repr

/-- The key-lookup errors (`KeyError`) the export filter can raise. -/
inductive PyError where
  | keyErrorSaveImagesToTags
  | keyErrorEmbedOnlyOneFrontImage
deriving DecidableEq, Repr

/-- Modelled from the spec: `ImageList.to_be_saved_to_tags(settings)` is a
generator — calling it always succeeds and returns an unevaluated sequence
(modelled as a thunk); the body runs on first consumption, failing with a
key-lookup error if a required key is absent (spec sections 4.1 and 7: "fails
with a missing-configuration error if either key is absent", raised on first
consumption per `test_to_be_saved_to_tags`). -/
def to_be_saved_to_tags (l : List Image) (settings : SettingsMap) :
    Unit → Except PyError (List Image) :=
  fun _ =>
    match settings.save_images_to_tags, settings.embed_only_one_front_image with
    | none, _ => Except.error PyError.keyErrorSaveImagesToTags
    | some _, none => Except.error PyError.keyErrorEmbedOnlyOneFrontImage
    | some save, some embed => Except.ok (to_be_saved_seq l save embed)

/-- A child-set mutation followed by its matching incremental aggregation
call: either new children are appended (followed by
`add_metadata_images_from_children`), or children are removed according to a
keep-mask (followed by `remove_metadata_images_from_children`). -/
inductive ChildOp where
  | add (new : List (List Image))
  | remove (mask : List Bool)
deriving Repr

/-- Keep exactly the children whose mask entry is true (children beyond the
mask's length are kept). -/
def maskFilter : List (List Image) → List Bool → List (List Image)
  | [], _ => []
  | c :: cs, [] => c :: cs
  | c :: cs, b :: bs => if b then c :: maskFilter cs bs else maskFilter cs bs

/-- Apply one child-set mutation and its matching incremental aggregation
call to a node state paired with its child set. -/
def applyChildOp (p : AggState × List (List Image)) (op : ChildOp) :
    AggState × List (List Image) :=
  match op with
  | ChildOp.add new =>
      ((add_metadata_images_from_children p.1 (p.2 ++ new) new).1, p.2 ++ new)
  | ChildOp.remove mask =>
      let rem := maskFilter p.2 mask
      ((remove_metadata_images_from_children p.1 rem).1, rem)

/-- Run a sequence of child mutations, each followed by its matching
incremental aggregation call, starting from a freshly constructed node with
no children. -/
def runChildOps (ops : List ChildOp) : AggState × List (List Image) :=
  ops.foldl applyChildOp (initialAggState, [])

/-- The three aggregate node kinds whose aggregation targets differ. -/
inductive NodeKind where
  | cluster
  | track
  | album
deriving DecidableEq, Repr

/-- An aggregate node: its kind and its two metadata stores (`metadata` and
`orig_metadata`), each holding an aggregated image collection and a
`has_common_images` flag. -/
structure Node where
  kind : NodeKind
  metadata : AggState
  orig_metadata : AggState
deriving DecidableEq, Repr

/-- Modelled from the spec and the repository's tests (the spec leaves the
store targeting implicit; `test_update_cluster_images`,
`test_update_track_images` and `test_remove_from_album` pin it): a Cluster's
recompute writes `metadata`, a Track's writes `orig_metadata`, and an Album's
writes both stores from the same child set. -/
def node_update_metadata_images_from_children (n : Node)
    (cs : List (List Image)) : Node × Bool :=
  match n.kind with
  | NodeKind.cluster =>
      let r := update_metadata_images_from_children n.metadata cs
      ({ n with metadata := r.1 }, r.2)
  | NodeKind.track =>
      let r := update_metadata_images_from_children n.orig_metadata cs
      ({ n with orig_metadata := r.1 }, r.2)
  | NodeKind.album =>
      let r := update_metadata_images_from_children n.metadata cs
      let r2 := update_metadata_images_from_children n.orig_metadata cs
      ({ n with metadata := r.1, orig_metadata := r2.1 }, r.2 || r2.2)

/-! ### Helper lemmas about membership and set equality -/

theorem mem_addUnique {acc : List Image} {i x : Image} :
    x ∈ addUnique acc i ↔ x ∈ acc ∨ x = i := by
  unfold addUnique
  split
  · rename_i h
    constructor
    · exact Or.inl
    · rintro (hx | rfl)
      · exact hx
      · exact h
  · simp [List.mem_append]

theorem mem_unionInto {l : List Image} : ∀ {acc : List Image} {x : Image},
    x ∈ unionInto acc l ↔ x ∈ acc ∨ x ∈ l := by
  induction l with
  | nil => intro acc x; simp [unionInto]
  | cons i t ih =>
      intro acc x
      have step : unionInto acc (i :: t) = unionInto (addUnique acc i) t := rfl
      rw [step, ih, mem_addUnique, List.mem_cons]
      tauto

theorem mem_foldl_unionInto {cs : List (List Image)} :
    ∀ {acc : List Image} {x : Image},
    x ∈ cs.foldl unionInto acc ↔ x ∈ acc ∨ ∃ c ∈ cs, x ∈ c := by
  induction cs with
  | nil => intro acc x; simp
  | cons c t ih =>
      intro acc x
      have step : (c :: t).foldl unionInto acc = t.foldl unionInto (unionInto acc c) := rfl
      rw [step, ih, mem_unionInto]
      constructor
      · rintro ((h | h) | ⟨d, hd, hx⟩)
        · exact Or.inl h
        · exact Or.inr ⟨c, List.mem_cons_self c t, h⟩
        · exact Or.inr ⟨d, List.mem_cons_of_mem c hd, hx⟩
      · rintro (h | ⟨d, hd, hx⟩)
        · exact Or.inl (Or.inl h)
        · rcases List.mem_cons.mp hd with rfl | hd
          · exact Or.inl (Or.inr hx)
          · exact Or.inr ⟨d, hd, hx⟩

theorem mem_images_union {cs : List (List Image)} {x : Image} :
    x ∈ images_union cs ↔ ∃ c ∈ cs, x ∈ c := by
  unfold images_union
  rw [mem_foldl_unionInto]
  simp

theorem imgSetEq_iff {a b : List Image} :
    imgSetEq a b = true ↔ ∀ x : Image, x ∈ a ↔ x ∈ b := by
  unfold imgSetEq
  rw [decide_eq_true_iff]
  constructor
  · rintro ⟨h1, h2⟩ x
    exact ⟨h1 x, h2 x⟩
  · intro h
    exact ⟨fun x hx => (h x).mp hx, fun x hx => (h x).mpr hx⟩

theorem imgSetEq_refl (a : List Image) : imgSetEq a a = true :=
  imgSetEq_iff.mpr (fun _ => Iff.rfl)

theorem has_common_iff {cs : List (List Image)} :
    has_common cs = true ↔ ∀ a ∈ cs, ∀ b ∈ cs, imgSetEq a b = true := by
  cases cs with
  | nil => simp [has_common]
  | cons c rest =>
      unfold has_common
      rw [decide_eq_true_iff]
      constructor
      · intro h a ha b hb
        rw [imgSetEq_iff]
        intro x
        have key : ∀ d ∈ c :: rest, (x ∈ d ↔ x ∈ c) := by
          intro d hd
          rcases List.mem_cons.mp hd with rfl | hd
          · exact Iff.rfl
          · exact Iff.symm (imgSetEq_iff.mp (h d hd) x)
        exact (key a ha).trans (key b hb).symm
      · intro h d hd
        exact h c (List.mem_cons_self c rest) d (List.mem_cons_of_mem c hd)

theorem mem_maskFilter {cs : List (List Image)} :
    ∀ {mask : List Bool} {c : List Image}, c ∈ maskFilter cs mask → c ∈ cs := by
  induction cs with
  | nil => intro mask c h; simp [maskFilter] at h
  | cons d t ih =>
      intro mask c h
      cases mask with
      | nil => exact h
      | cons b bs =>
          unfold maskFilter at h
          split at h
          · rcases List.mem_cons.mp h with rfl | h
            · exact List.mem_cons_self c t
            · exact List.mem_cons_of_mem d (ih h)
          · exact List.mem_cons_of_mem d (ih h)

theorem mem_images_union_append {cs ds : List (List Image)} {x : Image} :
    x ∈ images_union (cs ++ ds) ↔ x ∈ images_union cs ∨ x ∈ images_union ds := by
  rw [mem_images_union, mem_images_union, mem_images_union]
  constructor
  · rintro ⟨c, hc, hx⟩
    rcases List.mem_append.mp hc with hc | hc
    · exact Or.inl ⟨c, hc, hx⟩
    · exact Or.inr ⟨c, hc, hx⟩
  · rintro (⟨c, hc, hx⟩ | ⟨c, hc, hx⟩)
    · exact ⟨c, List.mem_append.mpr (Or.inl hc), hx⟩
    · exact ⟨c, List.mem_append.mpr (Or.inr hc), hx⟩

/-- The consistency invariant tying a node's aggregated state to its current
child set: the aggregated collection equals (as a set) the union of the
children's images, and the flag equals the common-images determination. -/
def AggInv (st : AggState) (cs : List (List Image)) : Prop :=
  (∀ x : Image, x ∈ st.images ↔ x ∈ images_union cs) ∧
  st.has_common_images = has_common cs

theorem applyChildOp_inv {p : AggState × List (List Image)} {op : ChildOp}
    (h : AggInv p.1 p.2) : AggInv (applyChildOp p op).1 (applyChildOp p op).2 := by
  obtain ⟨hmem, _⟩ := h
  cases op with
  | add new =>
      refine ⟨fun x => ?_, rfl⟩
      show x ∈ unionInto p.1.images (images_union new) ↔ x ∈ images_union (p.2 ++ new)
      rw [mem_unionInto, hmem x, mem_images_union_append]
  | remove mask =>
      refine ⟨fun x => ?_, rfl⟩
      show x ∈ p.1.images.filter
          (fun i => decide (i ∈ images_union (maskFilter p.2 mask))) ↔
        x ∈ images_union (maskFilter p.2 mask)
      rw [List.mem_filter, decide_eq_true_iff, hmem x]
      constructor
      · exact fun hx => hx.2
      · intro hx
        refine ⟨?_, hx⟩
        rcases mem_images_union.mp hx with ⟨c, hc, hxc⟩
        exact mem_images_union.mpr ⟨c, mem_maskFilter hc, hxc⟩

theorem foldl_applyChildOp_inv (ops : List ChildOp) :
    ∀ p : AggState × List (List Image), AggInv p.1 p.2 →
      AggInv (ops.foldl applyChildOp p).1 (ops.foldl applyChildOp p).2 := by
  induction ops with
  | nil => exact fun p h => h
  | cons op t ih => exact fun p h => ih (applyChildOp p op) (applyChildOp_inv h)

theorem runChildOps_inv (ops : List ChildOp) :
    AggInv (runChildOps ops).1 (runChildOps ops).2 :=
  foldl_applyChildOp_inv ops (initialAggState, []) ⟨fun _ => Iff.rfl, rfl⟩

/-- Claim C1: for every sequence of child additions or removals, each
followed by the matching incremental call
(`add_metadata_images_from_children` / `remove_metadata_images_from_children`),
the node's final aggregated image set and `has_common_images` flag equal (as
a set, resp. exactly) those produced by a single full
`update_metadata_images_from_children` recompute over the final child set. -/
theorem incremental_matches_full_recompute (ops : List ChildOp) :
    imgSetEq (runChildOps ops).1.images
      (update_metadata_images_from_children
        (runChildOps ops).1 (runChildOps ops).2).1.images = true ∧
    (runChildOps ops).1.has_common_images =
      (update_metadata_images_from_children
        (runChildOps ops).1 (runChildOps ops).2).1.has_common_images := by
  have h := runChildOps_inv ops
  exact ⟨imgSetEq_iff.mpr h.1, h.2⟩

/-- Claim C2: after `update_metadata_images_from_children`, the node's
`has_common_images` flag is true if and only if there are zero children or
every child's image set equals (as a set) every other child's; if any two
children's sets differ, the flag is false. -/
theorem update_has_common_images_iff_pairwise_equal (st : AggState)
    (cs : List (List Image)) :
    (update_metadata_images_from_children st cs).1.has_common_images = true ↔
      (cs = [] ∨ ∀ a ∈ cs, ∀ b ∈ cs, imgSetEq a b = true) := by
  have hu : (update_metadata_images_from_children st cs).1.has_common_images
      = has_common cs := rfl
  rw [hu, has_common_iff]
  constructor
  · exact Or.inr
  · rintro (rfl | h)
    · simp
    · exact h

/-- Claim C3: `update_metadata_images_from_children` returns true iff the
aggregated collection after the call differs as a set from before, or the
`has_common_images` flag differs from before; in the zero-children case on a
node that is already empty with flag true it returns false. -/
theorem update_returns_true_iff_changed (st : AggState) (cs : List (List Image)) :
    ((update_metadata_images_from_children st cs).2 = true ↔
      (imgSetEq st.images
          (update_metadata_images_from_children st cs).1.images = false ∨
        st.has_common_images ≠
          (update_metadata_images_from_children st cs).1.has_common_images)) ∧
    (update_metadata_images_from_children ⟨[], true⟩ []).2 = false := by
  refine ⟨?_, by decide⟩
  show (!(imgSetEq st.images (images_union cs))
      || (st.has_common_images != has_common cs)) = true ↔ _
  rw [Bool.or_eq_true, Bool.not_eq_true', bne_iff_ne]
  exact Iff.rfl

/-- A witness of claim C3's theorem at a concrete input: a fresh node gaining
one image-bearing child reports a change. -/
theorem update_returns_true_iff_changed_witness :
    (update_metadata_images_from_children ⟨[], true⟩ [[⟨0, false⟩]]).2 = true :=
  (update_returns_true_iff_changed ⟨[], true⟩ [[⟨0, false⟩]]).1.mpr
    (Or.inl (by decide))

/-- Claim C6: equality of Ordered Image Collections is set equality — two
collections built from the same images in any two orders compare equal, and
two collections compare equal exactly when they have the same members. -/
theorem imagelist_equality_is_set_equality (a b : List Image) :
    (a.Perm b → imgSetEq a b = true) ∧
    (imgSetEq a b = true ↔ ∀ x : Image, x ∈ a ↔ x ∈ b) :=
  ⟨fun hp => imgSetEq_iff.mpr (fun _ => hp.mem_iff), imgSetEq_iff⟩

/-- A witness of claim C6's theorem at a concrete input: two two-element
collections holding the same images in opposite orders compare equal. -/
theorem imagelist_equality_is_set_equality_witness :
    imgSetEq [⟨0, false⟩, ⟨1, true⟩] [⟨1, true⟩, ⟨0, false⟩] = true :=
  (imagelist_equality_is_set_equality [⟨0, false⟩, ⟨1, true⟩]
      [⟨1, true⟩, ⟨0, false⟩]).1
    (List.Perm.swap (⟨1, true⟩ : Image) (⟨0, false⟩ : Image) [])

/-- Claim C8 counterexample: on a fresh node with a single imageless child,
the first `update_metadata_images_from_children` call already returns false
(nothing changes), so the claimed "true then false" pattern fails. -/
theorem update_twice_true_then_false_counterexample :
    ¬ ((update_metadata_images_from_children initialAggState [[]]).2 = true ∧
       (update_metadata_images_from_children
          (update_metadata_images_from_children initialAggState [[]]).1
          [[]]).2 = false) := by
  decide

/-- Claim C8 amended: the second of two consecutive
`update_metadata_images_from_children` calls without intervening child
mutation always returns false (the first returns true exactly when the
recompute changes the aggregated set or the flag). -/
theorem update_second_call_returns_false (st : AggState)
    (cs : List (List Image)) :
    (update_metadata_images_from_children
       (update_metadata_images_from_children st cs).1 cs).2 = false := by
  show (!(imgSetEq (images_union cs) (images_union cs))
      || (has_common cs != has_common cs)) = false
  rw [imgSetEq_refl]
  simp

/-- Claim C9: the recompute writes its results to the store matching the node
kind — a Cluster updates `metadata` (leaving `orig_metadata` untouched), a
Track updates `orig_metadata` (leaving `metadata` untouched), and an Album
updates both stores with identical aggregated image sets and flags. -/
theorem node_update_store_targeting (md od : AggState) (cs : List (List Image)) :
    ((node_update_metadata_images_from_children
        ⟨NodeKind.cluster, md, od⟩ cs).1.metadata =
          (update_metadata_images_from_children md cs).1 ∧
      (node_update_metadata_images_from_children
        ⟨NodeKind.cluster, md, od⟩ cs).1.orig_metadata = od) ∧
    ((node_update_metadata_images_from_children
        ⟨NodeKind.track, md, od⟩ cs).1.orig_metadata =
          (update_metadata_images_from_children od cs).1 ∧
      (node_update_metadata_images_from_children
        ⟨NodeKind.track, md, od⟩ cs).1.metadata = md) ∧
    ((node_update_metadata_images_from_children
        ⟨NodeKind.album, md, od⟩ cs).1.metadata =
          (update_metadata_images_from_children md cs).1 ∧
      (node_update_metadata_images_from_children
        ⟨NodeKind.album, md, od⟩ cs).1.metadata =
        (node_update_metadata_images_from_children
          ⟨NodeKind.album, md, od⟩ cs).1.orig_metadata) :=
  ⟨⟨rfl, rfl⟩, ⟨rfl, rfl⟩, rfl, rfl⟩

theorem images_union_all_empty {cs : List (List Image)}
    (h : ∀ c ∈ cs, c = ([] : List Image)) : images_union cs = [] := by
  by_contra hne
  rcases List.exists_mem_of_ne_nil _ hne with ⟨y, hy⟩
  rcases mem_images_union.mp hy with ⟨c, hc, hyc⟩
  rw [h c hc] at hyc
  simp at hyc

theorem has_common_all_empty {cs : List (List Image)}
    (h : ∀ c ∈ cs, c = ([] : List Image)) : has_common cs = true := by
  rw [has_common_iff]
  intro a ha b hb
  rw [h a ha, h b hb]
  decide

/-- Claim C10: a freshly constructed aggregate node starts with an empty
aggregated collection and `has_common_images` true; the first full recompute
over children contributing no images returns false and leaves that state, and
a subsequent `remove_metadata_images_from_children` over such children also
returns false, leaving the collection empty and the flag true. -/
theorem fresh_node_empty_children_noop (cs rem : List (List Image))
    (h1 : ∀ c ∈ cs, c = ([] : List Image))
    (h2 : ∀ c ∈ rem, c = ([] : List Image)) :
    (update_metadata_images_from_children initialAggState cs).1 =
        initialAggState ∧
    (update_metadata_images_from_children initialAggState cs).2 = false ∧
    (remove_metadata_images_from_children
        (update_metadata_images_from_children initialAggState cs).1 rem).1 =
      initialAggState ∧
    (remove_metadata_images_from_children
        (update_metadata_images_from_children initialAggState cs).1 rem).2 =
      false := by
  have hu : images_union cs = [] := images_union_all_empty h1
  have hf : has_common cs = true := has_common_all_empty h1
  have hur : images_union rem = [] := images_union_all_empty h2
  have hfr : has_common rem = true := has_common_all_empty h2
  have hstate : (update_metadata_images_from_children initialAggState cs).1 =
      initialAggState := by
    show (⟨images_union cs, has_common cs⟩ : AggState) = initialAggState
    rw [hu, hf]
    rfl
  refine ⟨hstate, ?_, ?_, ?_⟩
  · show (!(imgSetEq initialAggState.images (images_union cs))
        || (initialAggState.has_common_images != has_common cs)) = false
    rw [hu, hf]
    decide
  · rw [hstate]
    show (⟨(initialAggState.images).filter
        (fun i => decide (i ∈ images_union rem)), has_common rem⟩ : AggState) =
      initialAggState
    rw [hfr]
    rfl
  · rw [hstate]
    have hfilter : (initialAggState.images).filter
        (fun i => decide (i ∈ images_union rem)) = [] := rfl
    show (!(imgSetEq initialAggState.images
          ((initialAggState.images).filter
            (fun i => decide (i ∈ images_union rem))))
        || (initialAggState.has_common_images != has_common rem)) = false
    rw [hfilter, hfr]
    decide

/-- A witness of claim C10's theorem at a concrete input: one imageless
child, then removal of all children. -/
theorem fresh_node_empty_children_noop_witness :
    (update_metadata_images_from_children initialAggState [[]]).2 = false ∧
    (remove_metadata_images_from_children
        (update_metadata_images_from_children initialAggState [[]]).1 []).2 =
      false :=
  ⟨(fresh_node_empty_children_noop [[]] [] (by decide) (by decide)).2.1,
   (fresh_node_empty_children_noop [[]] [] (by decide) (by decide)).2.2.2⟩

/-- Claim C4 counterexample: with `save_images_to_tags` and
`embed_only_one_front_image` both true, the non-front image of the collection
[non-front, front] is a member of the collection yet is NOT yielded — the
export does not emit "every non-front image plus the selected front image",
it emits only the selected front image (as the repository's
`test_to_be_saved_to_tags` shows). -/
theorem to_be_saved_nonfront_dropped_counterexample :
    (⟨0, false⟩ : Image) ∈ [(⟨0, false⟩ : Image), ⟨1, true⟩] ∧
    (⟨0, false⟩ : Image).front = false ∧
    (⟨0, false⟩ : Image) ∉ to_be_saved_seq [⟨0, false⟩, ⟨1, true⟩] true true ∧
    to_be_saved_seq [⟨0, false⟩, ⟨1, true⟩] true true = [⟨1, true⟩] := by
  decide

/-- Claim C4 amended: with `save_images_to_tags` true and
`embed_only_one_front_image` true, `to_be_saved_to_tags` yields exactly the
single front image selected by `get_front_image` (nothing when no front image
exists); every other image — non-front images included — is filtered out, and
everything yielded is a front image belonging to the collection. -/
theorem to_be_saved_embed_one_front (l : List Image) :
    to_be_saved_seq l true true = (get_front_image l).toList ∧
    ∀ x ∈ to_be_saved_seq l true true, x.front = true ∧ x ∈ l := by
  constructor
  · show (match get_front_image l with
      | some f => [f]
      | none => []) = (get_front_image l).toList
    cases get_front_image l <;> rfl
  · intro x hx
    cases h : get_front_image l with
    | none => simp [to_be_saved_seq, h] at hx
    | some f =>
        simp [to_be_saved_seq, h] at hx
        subst hx
        exact ⟨List.find?_some h, List.mem_of_find?_eq_some h⟩

/-- A witness of claim C4's amended theorem at a concrete input: the
collection [non-front, front] yields exactly its front image, which is indeed
a front image of the collection. -/
theorem to_be_saved_embed_one_front_witness :
    to_be_saved_seq [⟨0, false⟩, ⟨1, true⟩] true true =
      (get_front_image [⟨0, false⟩, ⟨1, true⟩]).toList ∧
    ((⟨1, true⟩ : Image).front = true ∧
      (⟨1, true⟩ : Image) ∈ [(⟨0, false⟩ : Image), ⟨1, true⟩]) :=
  ⟨(to_be_saved_embed_one_front [⟨0, false⟩, ⟨1, true⟩]).1,
   (to_be_saved_embed_one_front [⟨0, false⟩, ⟨1, true⟩]).2 ⟨1, true⟩ (by decide)⟩

/-- Claim C5 counterexample: on a collection of two front images,
`get_front_image` returns the FIRST front image in insertion order, not the
last one the claim demands (the last front image is the distinct second
element). -/
theorem get_front_image_not_last_counterexample :
    get_front_image [⟨0, true⟩, ⟨1, true⟩] = some ⟨0, true⟩ ∧
    ([(⟨0, true⟩ : Image), ⟨1, true⟩].reverse.find? (fun i => i.front)) =
      some ⟨1, true⟩ ∧
    (⟨0, true⟩ : Image) ≠ (⟨1, true⟩ : Image) := by
  decide

/-- Claim C5 amended: `get_front_image` returns the FIRST image in insertion
order whose front predicate holds (the earliest appended front image wins),
or none if no image in the collection satisfies the predicate. -/
theorem get_front_image_first_front_wins :
    (∀ (pre post : List Image) (i : Image), i.front = true →
        (∀ j ∈ pre, j.front = false) →
        get_front_image (pre ++ i :: post) = some i) ∧
    (∀ l : List Image, (∀ j ∈ l, j.front = false) →
        get_front_image l = none) := by
  constructor
  · intro pre post i hi hpre
    induction pre with
    | nil => simp [get_front_image, hi]
    | cons j t ih =>
        have hj : j.front = false := hpre j (List.mem_cons_self j t)
        have ht : ∀ k ∈ t, k.front = false :=
          fun k hk => hpre k (List.mem_cons_of_mem j hk)
        have step : get_front_image ((j :: t) ++ i :: post) =
            get_front_image (t ++ i :: post) := by
          simp [get_front_image, List.find?, hj]
        rw [step]
        exact ih ht
  · intro l
    induction l with
    | nil => intro _; rfl
    | cons j t ih =>
        intro hl
        have hj : j.front = false := hl j (List.mem_cons_self j t)
        have ht : ∀ k ∈ t, k.front = false :=
          fun k hk => hl k (List.mem_cons_of_mem j hk)
        have step : get_front_image (j :: t) = get_front_image t := by
          simp [get_front_image, List.find?, hj]
        rw [step]
        exact ih ht

/-- A witness of claim C5's amended theorem at concrete inputs: with fronts
in positions two and three, the second (earliest front) element is returned;
with no front at all, none is returned. -/
theorem get_front_image_first_front_wins_witness :
    get_front_image [⟨5, false⟩, ⟨6, true⟩, ⟨7, true⟩] = some ⟨6, true⟩ ∧
    get_front_image [⟨5, false⟩] = none :=
  ⟨get_front_image_first_front_wins.1 [⟨5, false⟩] [⟨7, true⟩] ⟨6, true⟩ rfl
      (by decide),
   get_front_image_first_front_wins.2 [⟨5, false⟩] (by decide)⟩

/-- Claim C7: `to_be_saved_to_tags` with a settings mapping missing a
required key does not fail at call time (the call returns the unevaluated
sequence) but fails with the matching key-lookup error on first consumption
of the produced sequence; no default value is substituted. -/
theorem to_be_saved_missing_key_raises_on_consumption (l : List Image)
    (e : Option Bool) (b : Bool) :
    to_be_saved_to_tags l ⟨none, e⟩ () =
      Except.error PyError.keyErrorSaveImagesToTags ∧
    to_be_saved_to_tags l ⟨some b, none⟩ () =
      Except.error PyError.keyErrorEmbedOnlyOneFrontImage :=
  ⟨rfl, rfl⟩
